import Mathlib

/-
Verification of `utils/github/__main__.py`, the ClickHouse release-hygiene
audit script.  The script selects the last N stable branches, walks the
commit history from the head down to the oldest considered fork point in
consecutive segments, flags commits that are neither merge commits of a
fetched pull request nor authored by the automation identity
`robot-clickhouse`, and flags pull requests having no label that starts
with `pr-`.

The helper modules `local` and `query` are not part of the sources; their
operations (`get_stables`, `get_head_commit`, `iterate`,
`get_pull_requests`) enter the model as abstract inputs, and the
commit-walk contract of `iterate` is modelled from the spec where a claim
depends on it.
-/

namespace ClickHouseAudit

/-- Python's `str.startswith(pre)`: the characters of `pre` form a prefix of
the characters of `s`. -/
def pyStartswith (s pre : String) : Bool :=
  pre.data.isPrefixOf s.data

/-- A commit author as the audit sees it: only the name is inspected. -/
structure Author where
  name : String
deriving DecidableEq, Repr

/-- A commit: its id (the string form used for `good_commits` membership)
and its author. -/
structure Commit where
  id : String
  author : Author
deriving DecidableEq, Repr

/-- One entry of the `pull_requests` mapping: `(number, (merge_commit_id,
labels))`, in the dictionary's iteration order. -/
abbrev PullReq := Nat × String × List String

/-- Line 57: `good_commits = set(oid[0] for oid in pull_requests.values())`
(kept as a list; only membership is ever used). -/
def good_commits (pull_requests : List PullReq) : List String :=
  pull_requests.map (fun p => p.2.1)

/-- The test on line 63: `str(commit) not in good_commits and
commit.author.name != 'robot-clickhouse'`. -/
def isBadCommit (good : List String) (c : Commit) : Bool :=
  !good.contains c.id && !(c.author.name == "robot-clickhouse")

/-- The segments walked by the loop of lines 61-66: `from_commit` starts at
the head and each fork point (given in processing order) becomes the next
`from_commit`.  The walk is polymorphic in how revisions are named so the
same loop can be instantiated with commits or with history positions. -/
def auditSegments {α : Type} (iterate : α → α → List Commit) : α → List α → List (List Commit)
  | _, [] => []
  | fromC, f :: rest => iterate fromC f :: auditSegments iterate f rest

/-- Lines 59-66: the `bad_commits` accumulation loop.  `fps` is the list of
fork points in processing order (`stables[i][1]` for
`i = len(stables)-1, ..., 0`). -/
def badCommitsLoop {α : Type} (iterate : α → α → List Commit) (good : List String) : α → List Commit → List α → List Commit
  | _, bad, [] => bad
  | fromC, bad, f :: rest =>
      badCommitsLoop iterate good f (bad ++ (iterate fromC f).filter (isBadCommit good)) rest

/-- Lines 70-75: the inner label scan (`label_found`). -/
def label_found (labels : List String) : Bool :=
  labels.any (fun l => pyStartswith l "pr-")

/-- Lines 68-78: the `bad_pull_requests` accumulation loop. -/
def bad_pull_requests (pull_requests : List PullReq) : List Nat :=
  pull_requests.foldl (fun acc p => if label_found p.2.2 then acc else acc ++ [p.1]) []

/-- Python's tail slice `l[-n:]` for an `int` count `n` (line 47 uses
`get_stables()[-args.number:]`).  For `n > 0` it keeps the last `n`
elements (all of them when fewer exist); `l[-0:]` is the whole list, and a
negative `n` yields `l[(-n):]`. -/
def pyTailSlice {α : Type} (l : List α) (n : Int) : List α :=
  if 0 < n then l.drop (l.length - n.toNat) else l.drop (-n).toNat

/-- The two output channels of the process. -/
inductive Channel
  | stdout
  | stderr
deriving DecidableEq, Repr

/-- One printed line: its channel and its text. -/
abbrev Line := Channel × String

def CHECK_MARK : String := "🗸"

def CROSS_MARK : String := "🗙"

def AUTHOR_MARK : String := "⚠"

/-- Lines 51-53: the found-stable-branches report, all on stdout. -/
def stableLines (stables : List (String × Commit)) : List Line :=
  (Channel.stdout, "Found stable branches:")
    :: stables.map (fun s => (Channel.stdout, CHECK_MARK ++ " " ++ s.1 ++ " forked from " ++ s.2.id))

/-- Line 82: `reversed(sorted(bad_pull_requests))`. -/
def displayBadPRs (bad : List Nat) : List Nat :=
  (List.insertionSort (· ≤ ·) bad).reverse

/-- Lines 80-83: the bad-pull-request report.  The header is printed with
`file=sys.stderr`; the number lines are printed with a bare `print`, hence
on stdout. -/
def badPullRequestLines (bad : List Nat) : List Line :=
  if bad.isEmpty then []
  else
    (Channel.stderr, "\nPull-requests without description label:")
      :: (displayBadPRs bad).map (fun n => (Channel.stdout, CROSS_MARK ++ " " ++ toString n))

/-- Lines 89-92: the `bad_authors` set, displayed sorted by name
(line 95). -/
def sortedBadAuthors (bad : List Commit) : List Author :=
  List.insertionSort (fun a b => a.name ≤ b.name) (bad.map Commit.author).dedup

/-- Lines 86-96: the bad-commit report (commit lines on stderr) followed by
the authors-to-warn report (on stdout). -/
def badCommitLines (bad : List Commit) : List Line :=
  if bad.isEmpty then []
  else
    (Channel.stderr, "\nCommits not referenced by any pull-request:")
      :: (bad.map (fun c => (Channel.stderr, CROSS_MARK ++ " " ++ c.id))
        ++ (Channel.stdout, "\nTell these authors not to push without pull-request and not to merge with rebase:")
          :: (sortedBadAuthors bad).map (fun a => (Channel.stdout, AUTHOR_MARK ++ " " ++ a.name)))

/-- The abstract inputs of one run: what `repo.get_stables()`,
`args.number`, `repo.get_head_commit()`, `repo.iterate` and
`github.get_pull_requests` return. -/
structure ProgramInput where
  all_stables : List (String × Commit)
  number : Int
  head : Commit
  iterate : Commit → Commit → List Commit
  get_pull_requests : Commit → List PullReq

/-- Lines 47-96: the whole run.  `Except.error msg` models
`sys.exit(msg)` (message on stderr, non-zero status, nothing else
produced); `Except.ok lines` models a normal zero-status exit having
printed `lines`. -/
def main (inp : ProgramInput) : Except String (List Line) :=
  match pyTailSlice inp.all_stables inp.number with
  | [] => Except.error "No stable branches found!"
  | s0 :: rest =>
      let stables := s0 :: rest
      let pull_requests := inp.get_pull_requests s0.2
      let good := good_commits pull_requests
      let bad := badCommitsLoop inp.iterate good inp.head [] ((stables.map Prod.snd).reverse)
      let badPRs := bad_pull_requests pull_requests
      Except.ok (stableLines stables ++ badPullRequestLines badPRs ++ badCommitLines bad)

/-- Modelled from the spec: `Local.iterate` (the `commits_between`
operation of the VersionControlAdapter) is in the absent `local` module.
On a linear history `hist` listed newest first, a revision is named by its
position; `commits_between hist i j` yields the commits from position `i`
(inclusive) down to position `j` (exclusive), newest first — finite,
reverse-chronological, exclusive of the lower bound. -/
def commits_between (hist : List Commit) (i j : Nat) : List Commit :=
  (hist.drop i).take (j - i)

/-! Helper lemmas relating the accumulation loops to their per-segment
decomposition. -/

theorem contains_iff_mem (l : List String) (a : String) : l.contains a = true ↔ a ∈ l :=
  List.elem_iff

theorem badCommitsLoop_eq {α : Type} (it : α → α → List Commit) (good : List String)
    (fps : List α) : ∀ (fromC : α) (acc : List Commit),
    badCommitsLoop it good fromC acc fps
      = acc ++ ((auditSegments it fromC fps).map (List.filter (isBadCommit good))).flatten := by
  induction fps with
  | nil => intro fromC acc; simp [badCommitsLoop, auditSegments]
  | cons f rest ih =>
      intro fromC acc
      simp only [badCommitsLoop, auditSegments, List.map_cons, List.flatten_cons]
      rw [ih]
      simp [List.append_assoc]

theorem bad_pull_requests_eq (prs : List PullReq) :
    bad_pull_requests prs = (prs.filter (fun p => !label_found p.2.2)).map Prod.fst := by
  have key : ∀ (l : List PullReq) (acc : List Nat),
      l.foldl (fun acc p => if label_found p.2.2 then acc else acc ++ [p.1]) acc
        = acc ++ (l.filter (fun p => !label_found p.2.2)).map Prod.fst := by
    intro l
    induction l with
    | nil => intro acc; simp
    | cons p rest ih =>
        intro acc
        by_cases h : label_found p.2.2 <;>
          simp [List.filter_cons, h, ih, List.append_assoc]
  simpa [bad_pull_requests] using key prs []

/-- C1: a commit appears in the bad-commit list exactly when it is
encountered in one of the audited segments, its id is not in
`good_commits`, and its author is not `robot-clickhouse`; in particular a
commit whose id is in `good_commits`, or one authored by the automation
identity, never appears there. -/
theorem badCommits_mem_iff (it : Commit → Commit → List Commit) (good : List String)
    (head : Commit) (fps : List Commit) (c : Commit) :
    c ∈ badCommitsLoop it good head [] fps ↔
      ((∃ seg ∈ auditSegments it head fps, c ∈ seg)
        ∧ c.id ∉ good ∧ c.author.name ≠ "robot-clickhouse") := by
  rw [badCommitsLoop_eq]
  simp only [List.nil_append, List.mem_flatten, List.mem_map, List.mem_filter]
  constructor
  · rintro ⟨l, ⟨seg, hseg, rfl⟩, hcl⟩
    rw [List.mem_filter] at hcl
    obtain ⟨hc, hbad⟩ := hcl
    simp only [isBadCommit, Bool.and_eq_true, Bool.not_eq_true'] at hbad
    refine ⟨⟨seg, hseg, hc⟩, ?_, ?_⟩
    · intro hmemgood
      rw [(contains_iff_mem good c.id).mpr hmemgood] at hbad
      exact absurd hbad.1 (by simp)
    · intro hname
      have : (c.author.name == "robot-clickhouse") = true := beq_iff_eq.mpr hname
      rw [this] at hbad
      exact absurd hbad.2 (by simp)
  · rintro ⟨⟨seg, hseg, hc⟩, hgood, hname⟩
    refine ⟨seg.filter (isBadCommit good), ⟨seg, hseg, rfl⟩, ?_⟩
    refine List.mem_filter.mpr ⟨hc, ?_⟩
    simp only [isBadCommit, Bool.and_eq_true, Bool.not_eq_true']
    constructor
    · rw [Bool.eq_false_iff]
      intro hct
      exact hgood ((contains_iff_mem good c.id).mp hct)
    · rw [Bool.eq_false_iff]
      intro hbe
      exact hname (beq_iff_eq.mp hbe)

/-- C2: a fetched pull request's number is in the bad-pull-request list
exactly when none of its labels starts with `pr-` (the pull-request
numbers, i.e. the keys of the fetched mapping, are distinct). -/
theorem bad_pull_requests_mem_iff (prs : List PullReq) (pr : PullReq)
    (hkeys : (prs.map Prod.fst).Nodup) (hmem : pr ∈ prs) :
    pr.1 ∈ bad_pull_requests prs ↔ ∀ l ∈ pr.2.2, pyStartswith l "pr-" = false := by
  rw [bad_pull_requests_eq]
  constructor
  · intro h
    simp only [List.mem_map, List.mem_filter, Bool.not_eq_true'] at h
    obtain ⟨q, ⟨hq, hqlab⟩, hqid⟩ := h
    have hqpr : q = pr := List.inj_on_of_nodup_map hkeys hq hmem hqid
    subst hqpr
    intro l hl
    simp only [label_found, List.any_eq_false, Bool.not_eq_true] at hqlab
    exact hqlab l hl
  · intro h
    refine List.mem_map.mpr ⟨pr, List.mem_filter.mpr ⟨hmem, ?_⟩, rfl⟩
    simp only [Bool.not_eq_true', label_found, List.any_eq_false, Bool.not_eq_true]
    exact h

/-- C2 witness: in a run fetching pull request 7 (labelled `pr-bugfix`) and
pull request 9 (labelled `improvement` only), number 9 is in the
bad-pull-request list. -/
theorem bad_pull_requests_mem_iff_witness :
    (9 : Nat) ∈ bad_pull_requests [(7, "m1", ["pr-bugfix"]), (9, "m2", ["improvement"])] :=
  (bad_pull_requests_mem_iff [(7, "m1", ["pr-bugfix"]), (9, "m2", ["improvement"])]
    (9, "m2", ["improvement"]) (by decide) (by decide)).mpr (by decide)

theorem commits_between_append (hist : List Commit) {i j k : Nat} (hij : i ≤ j) (hjk : j ≤ k) :
    commits_between hist i j ++ commits_between hist j k = commits_between hist i k := by
  simp only [commits_between]
  have h2 : i + (j - i) = j := by omega
  rw [show hist.drop j = (hist.drop i).drop (j - i) by rw [List.drop_drop, h2]]
  rw [← List.take_add]
  congr 1
  omega

theorem chain_le_getLastD {h : Nat} {qs : List Nat} (hc : List.Chain (· ≤ ·) h qs) :
    h ≤ qs.getLastD h := by
  induction qs generalizing h with
  | nil => simp [List.getLastD]
  | cons q rest ih =>
      cases hc with
      | cons hq hrest =>
          rw [List.getLastD_cons]
          exact le_trans hq (ih hrest)

theorem auditSegments_flatten (hist : List Commit) (qs : List Nat) : ∀ h : Nat,
    List.Chain (· ≤ ·) h qs →
    (auditSegments (commits_between hist) h qs).flatten
      = commits_between hist h (qs.getLastD h) := by
  induction qs with
  | nil => intro h _; simp [auditSegments, commits_between]
  | cons q rest ih =>
      intro h hc
      cases hc with
      | cons hq hrest =>
          simp only [auditSegments, List.flatten_cons, List.getLastD_cons]
          rw [ih q hrest, commits_between_append hist hq (chain_le_getLastD hrest)]

/-- C3: on a duplicate-free linear history, the walked segments — from the
head down to the newest considered fork point, then fork point to next
older fork point — partition the span from the head down to the oldest
considered fork point: their concatenation is exactly the single walk from
the head to the oldest fork point, and the segments are pairwise disjoint.
Fork points are given by position, `p :: ps` in stable-branch order
(oldest stable first, hence positions descending), and the segment loop
processes them reversed, as the source does. -/
theorem segments_partition_span (hist : List Commit) (p : Nat) (ps : List Nat)
    (hnd : hist.Nodup) (hsorted : List.Sorted (· ≥ ·) (p :: ps)) :
    (auditSegments (commits_between hist) 0 ((p :: ps).reverse)).flatten
        = commits_between hist 0 p
      ∧ List.Pairwise List.Disjoint
          (auditSegments (commits_between hist) 0 ((p :: ps).reverse)) := by
  have hchain : List.Chain (· ≤ ·) 0 ((p :: ps).reverse) := by
    rw [List.chain_iff_pairwise]
    refine List.Pairwise.cons (fun x _ => Nat.zero_le x) ?_
    rw [List.pairwise_reverse]
    exact hsorted.imp (fun hab => hab)
  have hlast : ((p :: ps).reverse).getLastD 0 = p := by
    rw [List.reverse_cons, List.getLastD_concat]
  have hflat := auditSegments_flatten hist ((p :: ps).reverse) 0 hchain
  rw [hlast] at hflat
  refine ⟨hflat, ?_⟩
  have hnodupflat :
      ((auditSegments (commits_between hist) 0 ((p :: ps).reverse)).flatten).Nodup := by
    rw [hflat]
    simp only [commits_between, List.drop_zero, Nat.sub_zero]
    exact List.Nodup.sublist (List.take_sublist p hist) hnd
  exact (List.nodup_flatten.mp hnodupflat).2

/-- C3 witness: a three-commit history with fork-point positions 2 and 1:
the two segments concatenate to the full walk down to position 2 and are
disjoint. -/
theorem segments_partition_span_witness :
    (auditSegments
        (commits_between [Commit.mk "a" (Author.mk "u"), Commit.mk "b" (Author.mk "v"),
          Commit.mk "c" (Author.mk "w")]) 0 (([2, 1] : List Nat).reverse)).flatten
        = commits_between [Commit.mk "a" (Author.mk "u"), Commit.mk "b" (Author.mk "v"),
            Commit.mk "c" (Author.mk "w")] 0 2
      ∧ List.Pairwise List.Disjoint
          (auditSegments
            (commits_between [Commit.mk "a" (Author.mk "u"), Commit.mk "b" (Author.mk "v"),
              Commit.mk "c" (Author.mk "w")]) 0 (([2, 1] : List Nat).reverse)) :=
  segments_partition_span
    [Commit.mk "a" (Author.mk "u"), Commit.mk "b" (Author.mk "v"),
      Commit.mk "c" (Author.mk "w")] 2 [1] (by decide) (by decide)

/-- C4: when the considered stable-branch slice is empty, the run
terminates at once with the fatal message `No stable branches found!` and
produces nothing else — no pull requests are fetched, no commits are
walked, no reports are built. -/
theorem no_stable_branches_fatal (inp : ProgramInput)
    (h : pyTailSlice inp.all_stables inp.number = []) :
    main inp = Except.error "No stable branches found!" := by
  unfold main
  rw [h]

/-- C4 witness: a repository with no stable branches at all. -/
theorem no_stable_branches_fatal_witness :
    main (ProgramInput.mk [] 3 (Commit.mk "h" (Author.mk "a")) (fun _ _ => []) (fun _ => []))
      = Except.error "No stable branches found!" :=
  no_stable_branches_fatal
    (ProgramInput.mk [] 3 (Commit.mk "h" (Author.mk "a")) (fun _ _ => []) (fun _ => []))
    (by decide)

/-- C5, evaluation at a failing input: a run with one stable branch, one
pull request (number 5, no labels, merge commit `M`) and one unreferenced
commit `X` by alice.  The bad-commit lines and both section headers go to
stderr and the stable-branch and author lines go to stdout as the claim
says, but the bad-pull-request number line goes to stdout: line 83 of the
source prints it without `file=sys.stderr`, although its own header on
line 81 goes to stderr, unlike the parallel bad-commit loop on line 91.
The claim (and the spec) say the pull-request list is written to
stderr. -/
theorem main_prints_bad_pull_numbers_on_stdout :
    main (ProgramInput.mk [("21.1", Commit.mk "F" (Author.mk "fork"))] 3
        (Commit.mk "H" (Author.mk "alice"))
        (fun _ _ => [Commit.mk "X" (Author.mk "alice"), Commit.mk "M" (Author.mk "bob")])
        (fun _ => [(5, "M", [])]))
      = Except.ok
          [(Channel.stdout, "Found stable branches:"),
           (Channel.stdout, "🗸 21.1 forked from F"),
           (Channel.stderr, "\nPull-requests without description label:"),
           (Channel.stdout, "🗙 5"),
           (Channel.stderr, "\nCommits not referenced by any pull-request:"),
           (Channel.stderr, "🗙 X"),
           (Channel.stdout, "\nTell these authors not to push without pull-request and not to merge with rebase:"),
           (Channel.stdout, "⚠ alice")] := by
  rfl

theorem auditSegments_concat {α : Type} (it : α → α → List Commit) (qs : List α) :
    ∀ fromC q : α,
      auditSegments it fromC (qs ++ [q])
        = auditSegments it fromC qs ++ [it (qs.getLastD fromC) q] := by
  induction qs with
  | nil => intro fromC q; rfl
  | cons r rest ih =>
      intro fromC q
      have hstep : auditSegments it fromC ((r :: rest) ++ [q])
          = it fromC r :: auditSegments it r (rest ++ [q]) := rfl
      rw [hstep, ih r q, List.getLastD_cons]
      rfl

theorem getLastD_reverse {α : Type} (l : List α) (d : α) :
    l.reverse.getLastD d = l.headD d := by
  rw [List.getLastD_eq_getLast?, List.getLast?_reverse, List.headD_eq_head?]

/-- C6: the displayed bad-pull-request numbers are the bad numbers in
descending order, and the bad commits are emitted per segment in walk
order with segments processed newest first: the commits of the oldest
segment — walked from the second-oldest fork point (or the head when only
one stable branch is considered) down to the oldest fork point — come
last. -/
theorem report_order (bad : List Nat) (it : Commit → Commit → List Commit)
    (good : List String) (head : Commit) (s0 : String × Commit)
    (rest : List (String × Commit)) :
    List.Sorted (· ≥ ·) (displayBadPRs bad)
  ∧ (displayBadPRs bad).Perm bad
  ∧ badCommitsLoop it good head [] (((s0 :: rest).map Prod.snd).reverse)
      = badCommitsLoop it good head [] ((rest.map Prod.snd).reverse)
        ++ (it ((rest.map Prod.snd).headD head) s0.2).filter (isBadCommit good) := by
  refine ⟨?_, ?_, ?_⟩
  · rw [List.Sorted, displayBadPRs, List.pairwise_reverse]
    exact (List.sorted_insertionSort (· ≤ ·) bad).imp (fun hab => hab)
  · exact (List.reverse_perm _).trans (List.perm_insertionSort _ bad)
  · rw [List.map_cons, List.reverse_cons, badCommitsLoop_eq, badCommitsLoop_eq,
      auditSegments_concat]
    simp [getLastD_reverse]

/-- C7: when fewer stable branches exist than the requested count, the
slice keeps them all and the run proceeds normally (no error), provided at
least one stable branch exists. -/
theorem under_request_uses_all (inp : ProgramInput)
    (hne : inp.all_stables ≠ [])
    (hlt : (inp.all_stables.length : Int) < inp.number) :
    pyTailSlice inp.all_stables inp.number = inp.all_stables
  ∧ (main inp).isOk = true := by
  have hpos : (0 : Int) < inp.number := by
    have hnn : (0 : Int) ≤ (inp.all_stables.length : Int) := Int.ofNat_nonneg _
    omega
  have hslice : pyTailSlice inp.all_stables inp.number = inp.all_stables := by
    unfold pyTailSlice
    rw [if_pos hpos]
    have hz : inp.all_stables.length - inp.number.toNat = 0 := by omega
    rw [hz, List.drop_zero]
  refine ⟨hslice, ?_⟩
  cases hcase : inp.all_stables with
  | nil => exact absurd hcase hne
  | cons a l =>
      unfold main
      rw [hslice, hcase]
      rfl

/-- C7 witness: three branches requested, one available — it is kept and
the run succeeds. -/
theorem under_request_uses_all_witness :
    pyTailSlice [("21.1", Commit.mk "F" (Author.mk "x"))] 3
        = [("21.1", Commit.mk "F" (Author.mk "x"))]
  ∧ (main (ProgramInput.mk [("21.1", Commit.mk "F" (Author.mk "x"))] 3
        (Commit.mk "H" (Author.mk "y")) (fun _ _ => []) (fun _ => []))).isOk = true :=
  under_request_uses_all
    (ProgramInput.mk [("21.1", Commit.mk "F" (Author.mk "x"))] 3
      (Commit.mk "H" (Author.mk "y")) (fun _ _ => []) (fun _ => []))
    (by decide) (by decide)

/-- C8: whenever the considered stable-branch slice is non-empty, the run
completes successfully — the audit reports violations only through its
printed lines, never through the exit status. -/
theorem reports_exit_zero (inp : ProgramInput)
    (h : pyTailSlice inp.all_stables inp.number ≠ []) :
    (main inp).isOk = true := by
  cases hcase : pyTailSlice inp.all_stables inp.number with
  | nil => exact absurd hcase h
  | cons a l =>
      unfold main
      rw [hcase]
      rfl

/-- C8 witness: a run that finds both a bad commit and a bad pull request
still completes successfully. -/
theorem reports_exit_zero_witness :
    (main (ProgramInput.mk [("22.3", Commit.mk "G" (Author.mk "fork"))] 3
        (Commit.mk "K" (Author.mk "carol"))
        (fun _ _ => [Commit.mk "Y" (Author.mk "carol")])
        (fun _ => [(11, "N", ["bugfix"])]))).isOk = true :=
  reports_exit_zero
    (ProgramInput.mk [("22.3", Commit.mk "G" (Author.mk "fork"))] 3
      (Commit.mk "K" (Author.mk "carol"))
      (fun _ _ => [Commit.mk "Y" (Author.mk "carol")])
      (fun _ => [(11, "N", ["bugfix"])]))
    (by decide)

/-- C9: with exactly one considered stable branch the loop walks exactly
one segment, from the head commit down to that branch's fork point, and
the bad-commit list is the filtered walk of that single segment — nothing
is skipped and no extra segment is walked. -/
theorem single_stable_single_segment (it : Commit → Commit → List Commit)
    (good : List String) (head : Commit) (s : String × Commit) :
    auditSegments it head (([s].map Prod.snd).reverse) = [it head s.2]
  ∧ badCommitsLoop it good head [] (([s].map Prod.snd).reverse)
      = (it head s.2).filter (isBadCommit good) := by
  exact ⟨rfl, rfl⟩

/-- C10: the automation-identity exemption does not reach the label check:
a pull request with no label starting with `pr-` is recorded as bad even
when its merge commit is authored by `robot-clickhouse`; and matching is
an exact, case-sensitive prefix test — the label `pr-` itself counts,
while a `PR-` label does not. -/
theorem label_rule_ignores_author (prs : List PullReq) (pr : PullReq) (c : Commit)
    (hmem : pr ∈ prs) (hid : c.id = pr.2.1)
    (hrobot : c.author.name = "robot-clickhouse")
    (hlabels : ∀ l ∈ pr.2.2, pyStartswith l "pr-" = false) :
    pr.1 ∈ bad_pull_requests prs
  ∧ label_found ["pr-"] = true
  ∧ label_found ["PR-bugfix"] = false := by
  refine ⟨?_, by decide, by decide⟩
  rw [bad_pull_requests_eq]
  refine List.mem_map.mpr ⟨pr, List.mem_filter.mpr ⟨hmem, ?_⟩, rfl⟩
  simp only [Bool.not_eq_true', label_found, List.any_eq_false, Bool.not_eq_true]
  exact hlabels

/-- C10 witness: pull request 7 has only the label `improvement` and its
merge commit `m1` is authored by the bot; it is still recorded as bad. -/
theorem label_rule_ignores_author_witness :
    (7 : Nat) ∈ bad_pull_requests [(7, "m1", ["improvement"])]
  ∧ label_found ["pr-"] = true
  ∧ label_found ["PR-bugfix"] = false :=
  label_rule_ignores_author [(7, "m1", ["improvement"])] (7, "m1", ["improvement"])
    (Commit.mk "m1" (Author.mk "robot-clickhouse")) (by decide) rfl rfl (by decide)

end ClickHouseAudit
